import Mathlib

/-!
Shallow embedding of the little-nova comment service (src/main.rs).

The service keeps an `Arc<RwLock<HashMap<Uuid, Comment>>>`; handlers are
`get_comment_entries` (list with pagination), `get_comment` (lookup by id)
and `create_comment` (insert). The `HashMap` is modelled as an association
list whose order stands for the map's unspecified iteration order; `Uuid`
and `DateTime<Utc>` are modelled as natural numbers (both types only need
equality resp. a total order here).
-/

namespace LittleNova

abbrev Uuid := Nat

abbrev UtcTime := Nat

/-- The Comment record of main.rs: id, name, text, utc. -/
structure Comment where
  id : Uuid
  name : String
  text : String
  utc : UtcTime
deriving DecidableEq, Repr

/-- Model of `HashMap<Uuid, Comment>`: an association list; the list order
models the map's unspecified iteration order. -/
abbrev Db := List (Uuid × Comment)

/-- `HashMap::get`: first (unique) binding of the key. -/
def dbGet (db : Db) (id : Uuid) : Option Comment :=
  match db with
  | [] => none
  | (k, v) :: rest => if k = id then some v else dbGet rest id

/-- `HashMap::insert`: replace the binding if the key is present, otherwise
add a new binding (placed last in the modelled iteration order). -/
def dbInsert (db : Db) (id : Uuid) (v : Comment) : Db :=
  match db with
  | [] => [(id, v)]
  | (k, w) :: rest => if k = id then (k, v) :: rest else (k, w) :: dbInsert rest id v

/-- `HashMap::values` (cloned): all stored comments in iteration order. -/
def dbValues (db : Db) : List Comment := db.map Prod.snd

/-- `HashMap::len`. -/
def dbLen (db : Db) : Nat := db.length

/-- HTTP status codes used by the handlers. -/
inductive StatusCode
  | ok
  | created
  | notFound
  | requestTimeout
  | internalServerError
deriving DecidableEq, Repr

/-- The Pagination query structure: both fields optional. -/
structure Pagination where
  offset : Option Nat
  limit : Option Nat
deriving DecidableEq, Repr

/-- `Pagination::default()` (derived Default): both fields `None`. -/
def paginationDefault : Pagination := { offset := none, limit := none }

/-- The CommentTemplate built by `get_comment` from the stored record. -/
structure CommentTemplate where
  id : Uuid
  name : String
  text : String
  utc : UtcTime
deriving DecidableEq, Repr

/-- The CommentEntriesTemplate built by `get_comment_entries`. -/
structure CommentEntriesTemplate where
  total : Nat
  entries : List Comment
deriving DecidableEq, Repr

/-- `get_comment`: look the id up under the read lock; `ok_or(NOT_FOUND)`,
then render the fields. -/
def get_comment (db : Db) (id : Uuid) : Except StatusCode CommentTemplate :=
  match dbGet db id with
  | none => .error .notFound
  | some c => .ok { id := c.id, name := c.name, text := c.text, utc := c.utc }

/-- One step of the stable insertion sort realising Rust's stable
`sort_by(|a, b| b.utc.cmp(&a.utc))`: descending by `utc`, ties keep their
original relative order. -/
def insertDesc (c : Comment) : List Comment → List Comment
  | [] => [c]
  | x :: xs => if c.utc < x.utc then x :: insertDesc c xs else c :: x :: xs

/-- Stable sort of a comment list, descending by `utc`, modelling
`comment_entries.sort_by(|a, b| b.utc.cmp(&a.utc))`. -/
def sortByUtcDesc (l : List Comment) : List Comment := l.foldr insertDesc []

/-- `get_comment_entries`: under the read lock, take `len()` as `total`,
then `values().cloned().skip(offset).take(limit).collect()`, and only then
sort the collected page descending by `utc`. A missing query string gives
`Pagination::default()`; missing fields default to offset 0 and limit 100. -/
def get_comment_entries (db : Db) (pagination : Option Pagination) :
    CommentEntriesTemplate :=
  let p := pagination.getD paginationDefault
  let total := dbLen db
  let comment_entries := ((dbValues db).drop (p.offset.getD 0)).take (p.limit.getD 100)
  { total := total, entries := sortByUtcDesc comment_entries }

/-- The CreateComment request body: name, text, utc. -/
structure CreateComment where
  name : String
  text : String
  utc : UtcTime
deriving DecidableEq, Repr

/-- `create_comment`: build a Comment from the body with a freshly generated
id (`Uuid::new_v4()` is modelled as the oracle argument `freshId`), insert it
under that id, and return `(CREATED, copy of the comment)`. -/
def create_comment (freshId : Uuid) (input : CreateComment) (db : Db) :
    (StatusCode × Comment) × Db :=
  let comment : Comment :=
    { id := freshId, name := input.name, text := input.text, utc := input.utc }
  ((.created, comment), dbInsert db comment.id comment)

/-- Run a sequence of `create_comment` calls (each with its oracle-chosen
fresh id) against a starting store, keeping only the store. -/
def runInsertsFrom (db : Db) (ops : List (Uuid × CreateComment)) : Db :=
  ops.foldl (fun d p => (create_comment p.1 p.2 d).2) db

/-- A store reachable by inserts alone, starting from the empty map that
`Db::default()` provides. -/
def runInserts (ops : List (Uuid × CreateComment)) : Db :=
  runInsertsFrom [] ops

/-- Spec-side listing algorithm, written from the spec's words for
comparison with `get_comment_entries`: sort the full snapshot by
`created_at` descending first, then skip `offset` and take `limit`. -/
def listCommentsSpec (db : Db) (offset limit : Nat) : List Comment :=
  ((sortByUtcDesc (dbValues db)).drop offset).take limit

/-- The admission timeout from the middleware stack:
`.timeout(Duration::from_secs(10))`. -/
def admissionTimeoutSecs : Nat := 10

/-- Errors that can reach HandleErrorLayer: tower's timeout `Elapsed` error
or any other boxed error from the request path. -/
inductive ServiceError
  | elapsed
  | other (msg : String)
deriving DecidableEq, Repr

/-- A response as seen by the client after error handling. -/
inductive HandledResponse
  | status (s : StatusCode)
  | errorResponse (s : StatusCode) (msg : String)
deriving DecidableEq, Repr

/-- The HandleErrorLayer closure of main: an `Elapsed` error becomes
`Ok(REQUEST_TIMEOUT)`; any other error becomes
`Err((INTERNAL_SERVER_ERROR, "Unhandled internal error: " + msg))`. -/
def handle_error : ServiceError → Except (StatusCode × String) StatusCode
  | .elapsed => .ok .requestTimeout
  | .other msg => .error (.internalServerError, "Unhandled internal error: " ++ msg)

/-- The tower timeout layer: a request whose processing takes longer than
the admission timeout is replaced by an `Elapsed` error; otherwise the inner
service's own result (a status or an error) passes through. `elapsedSecs`
is the wall-clock processing time of the inner service. -/
def timeoutLayer (elapsedSecs : Nat) (inner : Except ServiceError StatusCode) :
    Except ServiceError StatusCode :=
  if admissionTimeoutSecs < elapsedSecs then .error .elapsed else inner

/-- The per-request outcome: the timeout layer wraps the handler and
HandleErrorLayer converts any error into a response, so every request
produces a response and no failure escapes the request path. -/
def requestOutcome (elapsedSecs : Nat) (inner : Except ServiceError StatusCode) :
    HandledResponse :=
  match timeoutLayer elapsedSecs inner with
  | .ok s => .status s
  | .error e =>
    match handle_error e with
    | .ok s => .status s
    | .error p => .errorResponse p.1 p.2

/-- Lifecycle states of the server. -/
inductive LifecycleState
  | starting
  | serving
  | shuttingDown (drainSecs : Nat)
  | stopped
deriving DecidableEq, Repr

/-- TLS key material: a RustlsConfig built from certificate and key files. -/
structure TlsConfig where
  certPem : String
  keyPem : String
deriving DecidableEq, Repr

/-- Startup of main up to serving:
`RustlsConfig::from_pem_file(cert, key).await.unwrap()` runs before
`bind_rustls(..).serve(..)`; `tlsLoad` is the result of loading the key
material from the configured paths, and unwrap of an Err aborts the process
(modelled as `Except.error`) before the server ever accepts connections. -/
def startup (tlsLoad : Except String TlsConfig) : Except String LifecycleState :=
  match tlsLoad with
  | .error e => .error e
  | .ok _ => .ok .serving

/-- The two external termination signals the shutdown listener tolerates:
`tokio::signal::ctrl_c()` (interrupt) and `SignalKind::terminate()`. -/
inductive Signal
  | interrupt
  | terminate
deriving DecidableEq, Repr

/-- The drain window passed to `handle.graceful_shutdown`:
`Some(Duration::from_secs(30))`. -/
def drainWindowSecs : Nat := 30

/-- Whether a state accepts new connections: only `serving` does; after
`handle.graceful_shutdown` the listener stops accepting. -/
def acceptsNew : LifecycleState → Bool
  | .serving => true
  | _ => false

/-- graceful_shutdown as a step on the lifecycle state: the select! completes
on the first signal of either kind, and the task then calls
`handle.graceful_shutdown(Some(Duration::from_secs(30)))` exactly once and
ends, so a signal arriving while already shutting down changes nothing. -/
def shutdownStep (st : LifecycleState) (s : Signal) : LifecycleState :=
  match st, s with
  | .serving, _ => .shuttingDown drainWindowSecs
  | st, _ => st

/-- Fold a sequence of observed signals over the lifecycle state. -/
def runSignals (st : LifecycleState) (sigs : List Signal) : LifecycleState :=
  sigs.foldl shutdownStep st

/-- A concrete older comment, used in concrete evaluations. -/
def commentOld : Comment := { id := 1, name := "alice", text := "older", utc := 1 }

/-- A concrete newer comment, used in concrete evaluations. -/
def commentNew : Comment := { id := 2, name := "bob", text := "newer", utc := 2 }

/-- A concrete two-comment store whose iteration order puts the older
comment first. -/
def dbTwo : Db := [(1, commentOld), (2, commentNew)]

/- ### Store lemmas -/

theorem dbGet_dbInsert (db : Db) (k : Uuid) (v : Comment) (i : Uuid) :
    dbGet (dbInsert db k v) i = if k = i then some v else dbGet db i := by
  induction db with
  | nil => simp [dbInsert, dbGet]
  | cons hd rest ih =>
    obtain ⟨k', w⟩ := hd
    by_cases hk : k' = k
    · subst hk
      simp only [dbInsert, if_pos rfl, dbGet]
      by_cases hi : k' = i
      · subst hi; simp
      · simp [hi]
    · simp only [dbInsert, if_neg hk, dbGet]
      by_cases hi : k' = i
      · subst hi
        have : ¬ k = k' := fun h => hk h.symm
        simp [this]
      · simp [hi, ih]

theorem dbGet_runInsertsFrom (ops : List (Uuid × CreateComment)) (db : Db)
    (id : Uuid) (h : ∀ p ∈ ops, p.1 ≠ id) :
    dbGet (runInsertsFrom db ops) id = dbGet db id := by
  induction ops generalizing db with
  | nil => rfl
  | cons op rest ih =>
    have hop : op.1 ≠ id := h op (List.mem_cons_self _ _)
    have hrest : ∀ p ∈ rest, p.1 ≠ id := fun p hp => h p (List.mem_cons_of_mem _ hp)
    calc dbGet (runInsertsFrom db (op :: rest)) id
        = dbGet (dbInsert db op.1 _) id := ih _ hrest
      _ = dbGet db id := by rw [dbGet_dbInsert]; simp [hop]

theorem dbInsert_fresh_length (db : Db) (k : Uuid) (v : Comment)
    (h : dbGet db k = none) : (dbInsert db k v).length = db.length + 1 := by
  induction db with
  | nil => rfl
  | cons hd rest ih =>
    obtain ⟨k', w⟩ := hd
    simp only [dbGet] at h
    by_cases hk : k' = k
    · simp [hk] at h
    · simp only [dbInsert, if_neg hk, List.length_cons]
      rw [ih (by simpa [hk] using h)]

/- ### Sorting lemmas -/

theorem insertDesc_perm (c : Comment) (l : List Comment) :
    List.Perm (insertDesc c l) (c :: l) := by
  induction l with
  | nil => rfl
  | cons x xs ih =>
    simp only [insertDesc]
    split
    · exact (ih.cons x).trans (List.Perm.swap c x xs)
    · rfl

theorem sortByUtcDesc_perm (l : List Comment) :
    List.Perm (sortByUtcDesc l) l := by
  induction l with
  | nil => rfl
  | cons x xs ih =>
    exact (insertDesc_perm x (sortByUtcDesc xs)).trans (ih.cons x)

theorem insertDesc_pairwise (c : Comment) (l : List Comment)
    (h : l.Pairwise fun a b => b.utc ≤ a.utc) :
    (insertDesc c l).Pairwise fun a b => b.utc ≤ a.utc := by
  induction l with
  | nil => simp [insertDesc]
  | cons x xs ih =>
    rw [List.pairwise_cons] at h
    simp only [insertDesc]
    split
    · next hlt =>
      rw [List.pairwise_cons]
      refine ⟨fun y hy => ?_, ih h.2⟩
      rcases List.mem_cons.mp ((insertDesc_perm c xs).mem_iff.mp hy) with hy | hy
      · exact hy ▸ Nat.le_of_lt hlt
      · exact h.1 y hy
    · next hge =>
      have hxc : x.utc ≤ c.utc := Nat.le_of_not_lt hge
      rw [List.pairwise_cons]
      refine ⟨fun y hy => ?_, List.pairwise_cons.mpr h⟩
      rcases List.mem_cons.mp hy with hy | hy
      · exact hy ▸ hxc
      · exact Nat.le_trans (h.1 y hy) hxc

theorem sortByUtcDesc_pairwise (l : List Comment) :
    (sortByUtcDesc l).Pairwise fun a b => b.utc ≤ a.utc := by
  induction l with
  | nil => simp [sortByUtcDesc]
  | cons x xs ih => exact insertDesc_pairwise x (sortByUtcDesc xs) ih

theorem runSignals_shuttingDown (d : Nat) (sigs : List Signal) :
    runSignals (.shuttingDown d) sigs = .shuttingDown d := by
  induction sigs with
  | nil => rfl
  | cons s rest ih => exact ih

/- ### Claim theorems -/

/-- Claim C1: the spec's listing algorithm sorts the full snapshot by
`created_at` descending and only then skips `offset` and takes `limit`, so
that limit k < N yields the k most recent comments. The code instead applies
skip/take to the store's unsorted iteration order and sorts only the
selected page: at a two-comment store whose iteration order puts the older
comment first, offset 0 and limit 1 return the older comment, while the
spec algorithm returns the newer one. -/
theorem list_page_before_sort_bug :
    (get_comment_entries dbTwo (some { offset := some 0, limit := some 1 })).entries
      = [commentOld] ∧
    listCommentsSpec dbTwo 0 1 = [commentNew] ∧
    commentOld.utc < commentNew.utc := by
  refine ⟨rfl, rfl, by decide⟩

/-- Claim C2: an insert stores the comment under the freshly generated id
and returns a copy of the stored record, and a get on that id — also after
further inserts on other ids — succeeds with identical id, name, text and
created_at fields. -/
theorem get_after_insert (db : Db) (freshId : Uuid) (input : CreateComment)
    (later : List (Uuid × CreateComment))
    (hlater : ∀ p ∈ later, p.1 ≠ freshId) :
    (create_comment freshId input db).1.2 =
      { id := freshId, name := input.name, text := input.text, utc := input.utc } ∧
    dbGet (create_comment freshId input db).2 freshId =
      some (create_comment freshId input db).1.2 ∧
    get_comment (runInsertsFrom (create_comment freshId input db).2 later) freshId =
      .ok { id := freshId, name := input.name, text := input.text, utc := input.utc } := by
  have hstored : dbGet (create_comment freshId input db).2 freshId =
      some (create_comment freshId input db).1.2 := by
    show dbGet (dbInsert db freshId _) freshId = _
    rw [dbGet_dbInsert, if_pos rfl]
    rfl
  refine ⟨rfl, hstored, ?_⟩
  unfold get_comment
  rw [dbGet_runInsertsFrom later _ freshId hlater, hstored]
  rfl

/-- Claim C2 witness at a concrete insert followed by an insert on another
id. -/
theorem get_after_insert_witness :
    get_comment
      (runInsertsFrom (create_comment 3 ⟨"a", "x", 4⟩ []).2 [(7, ⟨"b", "y", 5⟩)]) 3 =
      .ok { id := 3, name := "a", text := "x", utc := 4 } :=
  (get_after_insert [] 3 ⟨"a", "x", 4⟩ [(7, ⟨"b", "y", 5⟩)] (by decide)).2.2

/-- Claim C3: a get on an id never returned by any insert yields the
NotFound outcome, for every store reachable by inserts. -/
theorem get_never_inserted_not_found (ops : List (Uuid × CreateComment))
    (id : Uuid) (h : ∀ p ∈ ops, p.1 ≠ id) :
    get_comment (runInserts ops) id = .error .notFound := by
  unfold get_comment runInserts
  rw [dbGet_runInsertsFrom ops [] id h]
  rfl

/-- Claim C3 witness: a lookup of id 2 after a single insert under id 1. -/
theorem get_never_inserted_not_found_witness :
    get_comment (runInserts [(1, ⟨"a", "x", 4⟩)]) 2 = .error .notFound :=
  get_never_inserted_not_found [(1, ⟨"a", "x", 4⟩)] 2 (by decide)

/-- Claim C4: the listing's total is the store size taken before pagination,
and an offset at or beyond the store size yields an empty page (not an
error) with the total unchanged. -/
theorem list_total_and_offset_out_of_range (db : Db)
    (pagination : Option Pagination) :
    (get_comment_entries db pagination).total = dbLen db ∧
    (dbLen db ≤ (pagination.getD paginationDefault).offset.getD 0 →
      (get_comment_entries db pagination).entries = []) := by
  refine ⟨rfl, fun h => ?_⟩
  show sortByUtcDesc (((dbValues db).drop _).take _) = []
  rw [List.drop_eq_nil_of_le (by simpa [dbValues, dbLen] using h), List.take_nil]
  rfl

/-- Claim C4 witness: offset 5 on the two-comment store gives an empty page
and total 2. -/
theorem list_total_and_offset_out_of_range_witness :
    (get_comment_entries dbTwo (some { offset := some 5, limit := some 10 })).total = 2 ∧
    (get_comment_entries dbTwo (some { offset := some 5, limit := some 10 })).entries = [] :=
  ⟨(list_total_and_offset_out_of_range dbTwo
      (some { offset := some 5, limit := some 10 })).1.trans rfl,
   (list_total_and_offset_out_of_range dbTwo
      (some { offset := some 5, limit := some 10 })).2 (by decide)⟩

/-- Claim C5: with pairwise distinct created_at values, listing with
offset 0 and limit N returns all N stored comments (a permutation of the
snapshot) sorted strictly descending by created_at, with total N. -/
theorem list_all_sorted_desc (db : Db)
    (hdist : (dbValues db).Pairwise fun a b => a.utc ≠ b.utc) :
    (get_comment_entries db (some { offset := some 0, limit := some (dbLen db) })).total
      = dbLen db ∧
    List.Perm
      (get_comment_entries db (some { offset := some 0, limit := some (dbLen db) })).entries
      (dbValues db) ∧
    (get_comment_entries db
      (some { offset := some 0, limit := some (dbLen db) })).entries.Pairwise
      (fun a b => b.utc < a.utc) := by
  have hvals : dbLen db = (dbValues db).length := by simp [dbValues, dbLen]
  have hentries :
      (get_comment_entries db (some { offset := some 0, limit := some (dbLen db) })).entries
        = sortByUtcDesc (dbValues db) := by
    show sortByUtcDesc (((dbValues db).drop 0).take (dbLen db)) = _
    rw [List.drop_zero, hvals, List.take_length]
  have hperm : List.Perm (sortByUtcDesc (dbValues db)) (dbValues db) :=
    sortByUtcDesc_perm (dbValues db)
  refine ⟨rfl, ?_, ?_⟩
  · rw [hentries]; exact hperm
  · rw [hentries]
    have hdist' : (sortByUtcDesc (dbValues db)).Pairwise fun a b => a.utc ≠ b.utc :=
      (List.Perm.pairwise_iff (fun h => h.symm) hperm).mpr hdist
    exact ((sortByUtcDesc_pairwise (dbValues db)).and hdist').imp
      (fun h => Nat.lt_of_le_of_ne h.1 h.2.symm)

/-- Claim C5 witness on the concrete two-comment store with distinct
timestamps. -/
theorem list_all_sorted_desc_witness :
    List.Perm
      (get_comment_entries dbTwo (some { offset := some 0, limit := some 2 })).entries
      (dbValues dbTwo) ∧
    (get_comment_entries dbTwo
      (some { offset := some 0, limit := some 2 })).entries.Pairwise
      (fun a b => b.utc < a.utc) :=
  ⟨(list_all_sorted_desc dbTwo (by decide)).2.1,
   (list_all_sorted_desc dbTwo (by decide)).2.2⟩

/-- Claim C6: a missing offset behaves as offset 0, a missing limit behaves
as limit 100, and a missing query string behaves as both defaults. -/
theorem pagination_defaults (db : Db) :
    get_comment_entries db none
      = get_comment_entries db (some { offset := some 0, limit := some 100 }) ∧
    (∀ lim, get_comment_entries db (some { offset := none, limit := lim })
      = get_comment_entries db (some { offset := some 0, limit := lim })) ∧
    (∀ off, get_comment_entries db (some { offset := off, limit := none })
      = get_comment_entries db (some { offset := off, limit := some 100 })) :=
  ⟨rfl, fun _ => rfl, fun _ => rfl⟩

/-- Claim C7: the admission timeout is 10 seconds; a request whose
processing exceeds it yields the RequestTimeout outcome (a response, not a
hang), and any other unhandled failure on the request path yields the
InternalError outcome — in both cases a response is produced per request,
so the failure does not escape the request path. -/
theorem timeout_and_internal_error (elapsedSecs : Nat)
    (inner : Except ServiceError StatusCode) (msg : String) :
    admissionTimeoutSecs = 10 ∧
    (admissionTimeoutSecs < elapsedSecs →
      requestOutcome elapsedSecs inner = .status .requestTimeout) ∧
    (elapsedSecs ≤ admissionTimeoutSecs →
      requestOutcome elapsedSecs (.error (.other msg)) =
        .errorResponse .internalServerError ("Unhandled internal error: " ++ msg)) := by
  refine ⟨rfl, fun h => ?_, fun h => ?_⟩
  · simp [requestOutcome, timeoutLayer, handle_error, if_pos h]
  · simp [requestOutcome, timeoutLayer, handle_error, Nat.not_lt.mpr h]

/-- Claim C7 witness: an 11-second request times out; a 1-second failing
request maps to the internal-error response. -/
theorem timeout_and_internal_error_witness :
    requestOutcome 11 (.ok .ok) = .status .requestTimeout ∧
    requestOutcome 1 (.error (.other "boom")) =
      .errorResponse .internalServerError ("Unhandled internal error: " ++ "boom") :=
  ⟨(timeout_and_internal_error 11 (.ok .ok) "boom").2.1 (by decide),
   (timeout_and_internal_error 1 (.error (.other "boom")) "boom").2.2 (by decide)⟩

/-- Claim C8: startup loads the TLS key material before serving; a failed
or invalid load aborts fatally and the Serving state is never reached,
while a successful load transitions to Serving. -/
theorem tls_startup (tlsLoad : Except String TlsConfig) :
    (∀ e, tlsLoad = .error e →
      startup tlsLoad = .error e ∧ ∀ st, startup tlsLoad ≠ .ok st) ∧
    (∀ c, tlsLoad = .ok c → startup tlsLoad = .ok .serving) := by
  constructor
  · rintro e rfl
    exact ⟨rfl, fun st h => Except.noConfusion h⟩
  · rintro c rfl
    rfl

/-- Claim C8 witness: a failed load aborts; a successful load serves. -/
theorem tls_startup_witness :
    startup (.error "missing key") = .error "missing key" ∧
    startup (.ok { certPem := "c", keyPem := "k" }) = .ok .serving :=
  ⟨((tls_startup (.error "missing key")).1 "missing key" rfl).1,
   (tls_startup (.ok { certPem := "c", keyPem := "k" })).2
     { certPem := "c", keyPem := "k" } rfl⟩

/-- Claim C9: the first signal of either kind moves the serving controller
to ShuttingDown exactly once, stopping new connections and starting the
30-second drain window; any further signal leaves the state unchanged, so
for every nonempty signal sequence the final state is that same
ShuttingDown state. -/
theorem shutdown_once (s : Signal) (rest : List Signal) :
    shutdownStep .serving s = .shuttingDown drainWindowSecs ∧
    drainWindowSecs = 30 ∧
    acceptsNew (shutdownStep .serving s) = false ∧
    (∀ s2, shutdownStep (.shuttingDown drainWindowSecs) s2
      = .shuttingDown drainWindowSecs) ∧
    runSignals .serving (s :: rest) = .shuttingDown drainWindowSecs := by
  refine ⟨rfl, rfl, rfl, fun s2 => rfl, ?_⟩
  show runSignals (shutdownStep .serving s) rest = _
  exact runSignals_shuttingDown drainWindowSecs rest

/-- Claim C10: an insert under a fresh id maps every other id exactly as
before and grows the store by one entry. -/
theorem insert_frame (db : Db) (freshId : Uuid) (input : CreateComment)
    (hfresh : dbGet db freshId = none) :
    (∀ i, i ≠ freshId →
      dbGet (create_comment freshId input db).2 i = dbGet db i) ∧
    dbLen (create_comment freshId input db).2 = dbLen db + 1 := by
  constructor
  · intro i hi
    show dbGet (dbInsert db freshId _) i = _
    rw [dbGet_dbInsert, if_neg (fun h => hi h.symm)]
  · exact dbInsert_fresh_length db freshId _ hfresh

/-- Claim C10 witness: inserting a fresh id 9 into the two-comment store
keeps id 1 mapped as before and grows the size from 2 to 3. -/
theorem insert_frame_witness :
    dbGet (create_comment 9 ⟨"carol", "z", 7⟩ dbTwo).2 1 = dbGet dbTwo 1 ∧
    dbLen (create_comment 9 ⟨"carol", "z", 7⟩ dbTwo).2 = dbLen dbTwo + 1 :=
  ⟨(insert_frame dbTwo 9 ⟨"carol", "z", 7⟩ (by decide)).1 1 (by decide),
   (insert_frame dbTwo 9 ⟨"carol", "z", 7⟩ (by decide)).2⟩

end LittleNova
